import Mathlib

/-
  Verification of the organicfabric content pipeline.

  Shallow embedding of the TypeScript sources:
    - src/pipelines/format-content.ts  (block assembly, image auto-insertion)
    - src/core/job-runner.ts           (orchestrator stages 3 and 4, empty guard)
    - src/pipelines/widgets.ts         (findBestWidget)
    - src/pipelines/sanitize.ts        (Gutenberg placeholder extraction and restore,
                                        external-link hook, allow-list configuration)

  JavaScript strings are modelled as Lean String, JavaScript numbers occurring as
  array indices as Int (all values in play are integral), undefined as Option.
-/

namespace OrganicFabric

/-- Whitespace test used by the models of JavaScript trim and the regex class \s
(restricted to the ASCII whitespace characters, the only ones the pipeline emits). -/
def isJsWs (c : Char) : Bool :=
  c == ' ' || c == '\t' || c == '\n' || c == '\r' || c == '\x0b' || c == '\x0c'

/-- Character-list version of JavaScript String.prototype.trim. -/
def trimChars (l : List Char) : List Char :=
  ((l.dropWhile isJsWs).reverse.dropWhile isJsWs).reverse

/-- Model of JavaScript String.prototype.trim. -/
def jsTrim (s : String) : String :=
  ⟨trimChars s.data⟩

/-- Sequential concatenation of emitted HTML chunks; models the accumulation
performed by repeated += on a string variable. -/
def concatChunks : List String → String
  | [] => ""
  | c :: cs => c ++ concatChunks cs

/-- Boolean test that the first list is a prefix of the second. -/
def hasPre : List Char → List Char → Bool
  | [], _ => true
  | _ :: _, [] => false
  | a :: as, b :: bs => a == b && hasPre as bs

/-- First occurrence of pat inside a character list, returned as the split
(characters before the match, characters after the match); none if absent. -/
def splitFirstSub (pat : List Char) : List Char → Option (List Char × List Char)
  | [] => if pat = [] then some ([], []) else none
  | c :: rest =>
      if hasPre pat (c :: rest) then some ([], (c :: rest).drop pat.length)
      else (splitFirstSub pat rest).map (fun pq => (c :: pq.1, pq.2))

/-- ASCII lowercasing of a string, character by character; models
String.prototype.toLowerCase on the ASCII inputs the pipeline handles. -/
def jsToLower (s : String) : String :=
  ⟨s.data.map Char.toLower⟩

/-- Model of JavaScript String.prototype.includes. -/
def containsSub (s pat : String) : Bool :=
  (splitFirstSub pat.data s.data).isSome

/-- Insertion at an index, appending at the end when the index is past the end;
models Array.prototype.splice(n, 0, a). -/
def insertAt {α : Type} (n : Nat) (a : α) : List α → List α
  | [] => [a]
  | b :: bs =>
      match n with
      | 0 => a :: b :: bs
      | m + 1 => b :: insertAt m a bs

/-! Embedding of src/pipelines/format-content.ts. -/

/-- Image record consumed by formatArticleHtml (interface ImageData in
format-content.ts: source_url, prompt, optional wpMediaId). -/
structure ImageData where
  source_url : String
  prompt : String
  wpMediaId : Option Int := none
deriving Repr, DecidableEq

/-- One entry of the JSON structure array returned by the classifier
(dynamic object with a type string and optional numeric indices). -/
structure StructItem where
  type : String
  blockIndex : Option Int := none
  imageIndex : Option Int := none
deriving Repr, DecidableEq

/-- JavaScript array read blocks[i] as it is interpolated into a template
literal: the element when i is in range, the string undefined otherwise. -/
def jsIndex (blocks : List String) (i : Int) : String :=
  if 0 ≤ i ∧ i < (blocks.length : Int) then blocks.getD i.toNat "undefined" else "undefined"

/-- Gutenberg image block emitted for one image (template literal in the
image case of the assembly switch); cap models generateShortRussianCaption,
which never throws (it returns a fixed fallback caption on failure). -/
def figureChunk (cap : String → String) (img : ImageData) : String :=
  let imageId : Int := img.wpMediaId.getD 0
  let caption := cap img.prompt
  "\n<!-- wp:image \x7b\"align\":\"center\",\"id\":" ++ toString imageId ++
    ",\"sizeSlug\":\"large\",\"linkDestination\":\"none\"\x7d -->\n<figure class=\"wp-block-image aligncenter size-large\" style=\"max-width: 600px; margin: 20px auto;\">\n  <img src=\"" ++
    img.source_url ++ "\" alt=\"" ++ caption ++ "\" class=\"wp-image-" ++ toString imageId ++
    "\" style=\"max-width: 100%; height: auto;\"/>\n  <figcaption style=\"text-align: center; font-style: italic; font-size: 0.9em; color: #555;\">" ++
    caption ++ "</figcaption>\n</figure>\n<!-- /wp:image -->\n"

/-- Stage 3 of formatArticleHtml: the assembly loop over the structure items,
carrying the isInsideList flag, emitting HTML chunks in order.  A list item
opens a container when none is open; any non-li item closes an open container;
a container still open at the end of the structure is closed.  Items whose
blockIndex is undefined or not below blocks.length are skipped; an image item
whose 1-based imageIndex maps below the image count but to a negative array
position makes the JavaScript code dereference undefined, which throws -
modelled as the error result. -/
def assembleGo (blocks : List String) (images : List ImageData) (cap : String → String) :
    List StructItem → Bool → Except String (List String)
  | [], isInsideList => .ok (if isInsideList then ["</ul>\n"] else [])
  | item :: rest, isInsideList =>
      if item.type = "li" then
        let openChunks : List String := if isInsideList then [] else ["<ul>\n"]
        let liChunks : List String :=
          match item.blockIndex with
          | some i =>
              if i < (blocks.length : Int) then ["  <li>" ++ jsIndex blocks i ++ "</li>\n"]
              else []
          | none => []
        match assembleGo blocks images cap rest true with
        | .error e => .error e
        | .ok cs => .ok (openChunks ++ (liChunks ++ cs))
      else
        let closeChunks : List String := if isInsideList then ["</ul>\n"] else []
        if item.type = "p" ∨ item.type = "h2" ∨ item.type = "h3" then
          let blockChunks : List String :=
            match item.blockIndex with
            | some i =>
                if i < (blocks.length : Int) then
                  ["<" ++ item.type ++ ">" ++ jsIndex blocks i ++ "</" ++ item.type ++ ">\n"]
                else []
            | none => []
          match assembleGo blocks images cap rest false with
          | .error e => .error e
          | .ok cs => .ok (closeChunks ++ (blockChunks ++ cs))
        else if item.type = "table" then
          let tableChunks : List String :=
            match item.blockIndex with
            | some i =>
                if i < (blocks.length : Int) then
                  ["\n<!-- wp:html -->\n" ++ jsIndex blocks i ++ "\n<!-- /wp:html -->\n"]
                else []
            | none => []
          match assembleGo blocks images cap rest false with
          | .error e => .error e
          | .ok cs => .ok (closeChunks ++ (tableChunks ++ cs))
        else if item.type = "image" then
          match item.imageIndex with
          | some m =>
              if m - 1 < (images.length : Int) then
                if m - 1 < 0 then
                  .error "Cannot read properties of undefined (reading \x27prompt\x27)"
                else
                  let img := images.getD (m - 1).toNat ⟨"", "", none⟩
                  match assembleGo blocks images cap rest false with
                  | .error e => .error e
                  | .ok cs => .ok (closeChunks ++ ([figureChunk cap img] ++ cs))
              else
                match assembleGo blocks images cap rest false with
                | .error e => .error e
                | .ok cs => .ok (closeChunks ++ cs)
          | none =>
              match assembleGo blocks images cap rest false with
              | .error e => .error e
              | .ok cs => .ok (closeChunks ++ cs)
        else
          match assembleGo blocks images cap rest false with
          | .error e => .error e
          | .ok cs => .ok (closeChunks ++ cs)

/-- Item filter used when choosing anchors for auto-inserted images
(structure items of type p, h2 or h3). -/
def isContentType (it : StructItem) : Bool :=
  it.type == "p" || it.type == "h2" || it.type == "h3"

/-- Anchor position for the idx-th auto-inserted missing image.  Models
Math.floor(totalBlocks * (0.3 + idx * 0.3)) over the rationals; the
double-precision evaluation can differ by one on boundary products, which none
of the theorems below evaluate. -/
def insertPosition (totalBlocks idx : Nat) : Nat :=
  totalBlocks * (3 + 3 * idx) / 10

/-- One iteration of the auto-insert loop for a missing image index.  The
JavaScript code keeps object references to the chosen content block and finds
it again with indexOf (reference identity); that identity is modelled by
tagging every original structure item with its original position. -/
def insertMissingOne (contentTags : List Nat) (totalBlocks : Nat)
    (tagged : List (Option Nat × StructItem)) (idx : Nat) (imageIndex : Int) :
    List (Option Nat × StructItem) :=
  match contentTags.get? (insertPosition totalBlocks idx) with
  | none => tagged
  | some tag =>
      match tagged.findIdx? (fun p => p.1 == some tag) with
      | none => tagged
      | some k => insertAt (k + 1) (none, { type := "image", imageIndex := some imageIndex }) tagged

/-- Validation step of formatArticleHtml: image indices 1..images.length that
no image item references are collected and spliced into the structure after
strategically chosen content blocks; when the computed anchor position has no
content block, the missing image is not inserted. -/
def autoInsertImages (st : List StructItem) (images : List ImageData) : List StructItem :=
  let usedImageIndexes : List (Option Int) :=
    (st.filter (fun it => it.type == "image")).map (fun it => it.imageIndex)
  let missingImages : List Int :=
    ((List.range images.length).map (fun k => Int.ofNat (k + 1))).filter
      (fun i => !(usedImageIndexes.contains (some i)))
  let tagged : List (Option Nat × StructItem) := st.enum.map (fun p => (some p.1, p.2))
  let contentTags : List Nat := (st.enum.filter (fun p => isContentType p.2)).map (fun p => p.1)
  let totalBlocks := contentTags.length
  ((missingImages.enum.foldl
      (fun acc p => insertMissingOne contentTags totalBlocks acc p.1 p.2) tagged).map
    (fun p => p.2))

/-- Observable shape of the classifier completion, as the code inspects it:
missing content, a JSON parse failure carrying its message, a parsed object
whose structure field is not an array, or a parsed structure array. -/
inductive ClassifierResp where
  | noContent : ClassifierResp
  | badJson : String → ClassifierResp
  | notArray : ClassifierResp
  | ok : List StructItem → ClassifierResp
deriving Repr, DecidableEq

/-- Error rewrapping in the catch block of formatArticleHtml: rate-limit and
authentication errors are replaced by fixed messages, everything else is
rethrown as is. -/
def rewrapError (msg : String) : String :=
  if containsSub msg "rate_limit" then "OpenAI rate limit exceeded. Please try again later."
  else if containsSub msg "authentication" || containsSub msg "401" then
    "OpenAI authentication failed. Check OPENAI_API_KEY."
  else msg

/-- Model of formatArticleHtml from the classifier response on: response
validation, image auto-insertion, assembly, final trim.  Every failure path
rethrows (through rewrapError); there is no identity-structure fallback. -/
def formatArticleHtml (blocks : List String) (images : List ImageData)
    (resp : ClassifierResp) (cap : String → String) : Except String String :=
  match resp with
  | .noContent => .error (rewrapError "AI returned an empty structure response.")
  | .badJson msg => .error (rewrapError msg)
  | .notArray => .error (rewrapError "AI response is not a valid structure array.")
  | .ok st =>
      match assembleGo blocks images cap (autoInsertImages st images) false with
      | .error e => .error (rewrapError e)
      | .ok cs => .ok (jsTrim (concatChunks cs))

/-- Whether an image item emits a figure chunk: an image item whose 1-based
index passes the length guard and maps to a non-negative array position. -/
def figEmits (images : List ImageData) (it : StructItem) : Bool :=
  if it.type = "image" then
    match it.imageIndex with
    | some m => decide (m - 1 < (images.length : Int)) && decide (¬(m - 1 < 0))
    | none => false
  else false

/-- Number of figure-emitting items in a structure. -/
def countEmits (images : List ImageData) : List StructItem → Nat
  | [] => 0
  | it :: rest => (if figEmits images it then 1 else 0) + countEmits images rest

/-! Embedding of the orchestrator html flow in src/core/job-runner.ts (runJob). -/

/-- Global literal substring replacement, left to right, non-overlapping;
models String.prototype.replace with a global regex of a literal pattern. -/
def replAllGo (pat rep : List Char) : Nat → List Char → List Char
  | 0, l => l
  | _ + 1, [] => []
  | fuel + 1, c :: rest =>
      if hasPre pat (c :: rest) then rep ++ replAllGo pat rep fuel ((c :: rest).drop pat.length)
      else c :: replAllGo pat rep fuel rest

/-- Model of s.replace(new global literal pattern, rep) for a nonempty pattern. -/
def jsReplaceAll (pat rep s : String) : String :=
  if pat.data = [] then s else ⟨replAllGo pat.data rep.data s.data.length s.data⟩

/-- Last-line-of-defense rendering of the raw parsed text, from the empty-result
guard in runJob: paragraph breaks on blank lines, br on single newlines. -/
def rawTextFallback (text : String) : String :=
  "<p>" ++ jsReplaceAll "\n" "<br>" (jsReplaceAll "\n\n" "</p><p>" text) ++ "</p>"

/-- Stage 3 of runJob: AI formatting with fallback - the formatted HTML is used
only when it is longer than 100 characters; a thrown formatting error or a
short result falls back to the raw parser HTML. -/
def stage3 (rawHtml : String) (fmt : Except String String) : String :=
  match fmt with
  | .ok formattedHtml => if 100 < formattedHtml.length then formattedHtml else rawHtml
  | .error _ => rawHtml

/-- Stage 4 of runJob: sanitize then insert widgets inside one try block whose
catch reverts to the stage-3 HTML.  insertWidgets never throws (its own catch
returns its input), so the catch is reached exactly when sanitizeHtml throws -
and then the pre-sanitization HTML is carried forward. -/
def stage4 (workingHtml : String) (san : String → Except String String)
    (wid : String → String) : String :=
  match san workingHtml with
  | .ok safeHtml => wid safeHtml
  | .error _ => workingHtml

/-- Empty-result guard after stage 4 of runJob. -/
def emptyGuard (text finalHtml : String) : String :=
  if (jsTrim finalHtml).length = 0 then rawTextFallback text else finalHtml

/-- Outcome of one run: HTML handed to wordpress.createPost and the terminal
job status. -/
structure JobResult where
  sentToWordpress : Option String
  status : String
deriving Repr, DecidableEq

/-- Html flow of runJob after a successful parse stage: stages 3 and 4, the
empty guard, then publication; only an error thrown out of the publish call
reaches the outer catch that sets status ERROR. -/
def runJobHtmlFlow (text rawHtml : String) (fmt : Except String String)
    (san : String → Except String String) (wid : String → String)
    (pub : String → Except String Unit) : JobResult :=
  let workingHtml := stage3 rawHtml fmt
  let finalHtml := emptyGuard text (stage4 workingHtml san wid)
  match pub finalHtml with
  | .ok _ => { sentToWordpress := some finalHtml, status := "DONE" }
  | .error _ => { sentToWordpress := some finalHtml, status := "ERROR" }

/-! Embedding of findBestWidget from src/pipelines/widgets.ts. -/

/-- Widget catalog entry with the fields findBestWidget reads (the catalog
itself is loaded from config/widgets.json at startup). -/
structure WidgetDefinition where
  id : String
  title : String
  position : String
  topics : List String
  embed_html : String
deriving Repr, DecidableEq

/-- Tag-overlap score: the number of widget topics that are case-insensitively
contained as substrings in some article tag. -/
def widgetScore (articleTags : List String) (w : WidgetDefinition) : Nat :=
  ((w.topics.map jsToLower).filter
    (fun widgetTopic => (articleTags.map jsToLower).any
      (fun articleTag => containsSub articleTag widgetTopic))).length

/-- Selection loop of findBestWidget: best widget so far and its score, updated
only on a strictly greater score (ties keep the earlier widget). -/
def selectLoop (articleTags : List String) :
    List WidgetDefinition → Option WidgetDefinition × Nat → Option WidgetDefinition × Nat
  | [], acc => acc
  | w :: ws, (bestWidget, maxScore) =>
      let score := widgetScore articleTags w
      if maxScore < score then selectLoop articleTags ws (some w, score)
      else selectLoop articleTags ws (bestWidget, maxScore)

/-- Model of findBestWidget: filter the catalog by position (returning null
when no widget has the position), run the scoring loop from (null, 0), and on a
null best widget look up the position-specific universal fallback id in the
whole catalog. -/
def findBestWidget (catalog : List WidgetDefinition) (articleTags : List String)
    (position : String) : Option WidgetDefinition :=
  let candidateWidgets := catalog.filter (fun w => w.position == position)
  if candidateWidgets.isEmpty then none
  else
    match selectLoop articleTags candidateWidgets (none, 0) with
    | (some bestWidget, _) => some bestWidget
    | (none, _) =>
        let fallbackId := if position == "top" then "universal-fallback-top"
          else "universal-fallback-bottom"
        match catalog.find? (fun w => w.id == fallbackId) with
        | some fallbackWidget => some fallbackWidget
        | none => none

/-! Embedding of src/pipelines/sanitize.ts. -/

/-- Length of the match of the Gutenberg comment regex <!--\s*\/?wp:[^>]+-->
anchored at the start of the list, if it matches there.  The greedy class
[^>]+ cannot cross a greater-than sign, so the regex matches exactly when the
maximal run of non-gt characters after wp: ends in two hyphens directly before
a gt, with at least one character before those hyphens. -/
def gbMatchLen (l : List Char) : Option Nat :=
  if hasPre ("<!--".data) l then
    let r1 := l.drop 4
    let nws := (r1.takeWhile isJsWs).length
    let r2 := r1.drop nws
    let pr3 : Nat × List Char :=
      match r2 with
      | '/' :: tl => (1, tl)
      | _ => (0, r2)
    if hasPre ("wp:".data) pr3.2 then
      let t := pr3.2.drop 3
      let u := t.takeWhile (fun c => c != '>')
      if u.length + 1 ≤ t.length ∧ 3 ≤ u.length ∧ hasPre ['-', '-'] u.reverse then
        some (4 + nws + pr3.1 + 3 + u.length + 1)
      else none
    else none
  else none

/-- Scanner for the global Gutenberg-comment replace: walks the input, replaces
each match with a numbered placeholder and collects the matched comments in
order.  Fuel is the remaining input length, always sufficient. -/
def gbScan : Nat → List Char → Nat → List Char × List String
  | 0, l, _ => (l, [])
  | _ + 1, [], _ => ([], [])
  | fuel + 1, c :: rest, count =>
      match gbMatchLen (c :: rest) with
      | some n =>
          let comment : String := ⟨(c :: rest).take n⟩
          let placeholder := "__GUTENBERG_COMMENT_" ++ toString count ++ "__"
          let next := gbScan fuel ((c :: rest).drop n) (count + 1)
          (placeholder.data ++ next.1, comment :: next.2)
      | none =>
          let next := gbScan fuel rest count
          (c :: next.1, next.2)

/-- Extraction pass of sanitizeHtml: Gutenberg comments replaced by
placeholders, comments collected in order of appearance. -/
def extractGutenberg (s : String) : String × List String :=
  let r := gbScan s.data.length s.data 0
  (⟨r.1⟩, r.2)

/-- Dollar-pattern expansion of String.prototype.replace when the replacement
is a plain string: dollar-dollar is a literal dollar, dollar-amp the matched
substring, dollar-backquote the text before the match, dollar-quote the text
after the match; any other dollar sequence stays literal. -/
def expandRepl (matched pre post : List Char) : List Char → List Char
  | [] => []
  | '$' :: '$' :: tl => '$' :: expandRepl matched pre post tl
  | '$' :: '&' :: tl => matched ++ expandRepl matched pre post tl
  | '$' :: '\x60' :: tl => pre ++ expandRepl matched pre post tl
  | '$' :: '\x27' :: tl => post ++ expandRepl matched pre post tl
  | c :: tl => c :: expandRepl matched pre post tl

/-- Model of s.replace(search, repl) with a string search pattern: only the
first occurrence is replaced, and the replacement string undergoes
dollar-pattern expansion. -/
def jsReplaceOnce (s search repl : String) : String :=
  match splitFirstSub search.data s.data with
  | none => s
  | some pq => ⟨pq.1 ++ expandRepl search.data pq.1 pq.2 repl.data ++ pq.2⟩

/-- Restore pass of sanitizeHtml: each collected comment is substituted back
for its numbered placeholder with String.prototype.replace. -/
def restoreComments (clean : String) (comments : List String) : String :=
  comments.enum.foldl
    (fun acc p => jsReplaceOnce acc ("__GUTENBERG_COMMENT_" ++ toString p.1 ++ "__") p.2) clean

/-- Model of sanitizeHtml, parameterized by the DOMPurify core purify.sanitize
(third-party library, not repository code): extract Gutenberg comments to
placeholders, sanitize, restore the comments.  The figure/table counters only
log; the catch rethrows, and the purify core is total here. -/
def sanitizeHtml (purify : String → String) (dirtyHtml : String) : String :=
  let extracted := extractGutenberg dirtyHtml
  restoreComments (purify extracted.1) extracted.2

/-! The afterSanitizeAttributes hook: external-link rewriting. -/

/-- Element as the hook sees it: tag name and attribute list with
getAttribute/setAttribute access. -/
structure DomNode where
  tagName : String
  attrs : List (String × String)
deriving Repr, DecidableEq

/-- First attribute entry with the given name. -/
def lookupAttr (k : String) : List (String × String) → Option (String × String)
  | [] => none
  | p :: rest => if p.1 = k then some p else lookupAttr k rest

/-- Whether an attribute with the given name is present. -/
def hasAttr (k : String) : List (String × String) → Bool
  | [] => false
  | p :: rest => if p.1 = k then true else hasAttr k rest

/-- Model of Element.getAttribute. -/
def getAttr (n : DomNode) (k : String) : Option String :=
  (lookupAttr k n.attrs).map (fun p => p.2)

/-- Model of Element.setAttribute: overwrite the existing attribute in place,
or append a new one. -/
def setAttr (n : DomNode) (k v : String) : DomNode :=
  if hasAttr k n.attrs then
    { n with attrs := n.attrs.map (fun p => if p.1 = k then (k, v) else p) }
  else
    { n with attrs := n.attrs ++ [(k, v)] }

/-- Test of the hook regex ^https?:\/\/ with the ignore-case flag. -/
def isHttpAbs (href : String) : Bool :=
  hasPre ("http://".data) (jsToLower href).data || hasPre ("https://".data) (jsToLower href).data

/-- Characters that terminate the authority component of a URL. -/
def isAuthorityEnd (c : Char) : Bool :=
  c == '/' || c == '?' || c == '#'

/-- Text after the last at sign, for dropping URL userinfo. -/
def afterLastAt (l : List Char) : List Char :=
  l.foldl (fun acc c => if c == '@' then [] else acc ++ [c]) []

/-- Modelled from the spec: the hostname getter of the WHATWG URL platform
class (new URL(s).hostname), which is not repository code, restricted to
absolute http(s) URLs without IPv6 host literals: lowercased host between the
scheme (plus optional userinfo) and the first port, path, query or fragment
delimiter; none models the constructor throwing. -/
def urlHostname (s : String) : Option String :=
  let ls := (jsToLower s).data
  let rest : Option (List Char) :=
    if hasPre ("https://".data) ls then some (ls.drop 8)
    else if hasPre ("http://".data) ls then some (ls.drop 7)
    else none
  match rest with
  | none => none
  | some r =>
      let authority := r.takeWhile (fun c => !isAuthorityEnd c)
      let host := (afterLastAt authority).takeWhile (fun c => c != ':')
      if host = [] then none else some ⟨host⟩

/-- Model of the afterSanitizeAttributes hook registered in sanitize.ts: on an
anchor with an absolute http(s) href whose hostname differs from the hostname
of the configured site URL (or when either hostname cannot be determined),
inject target equal to _blank and rel equal to noopener noreferrer; all other
nodes pass through untouched. -/
def processAnchor (wpSiteUrl : String) (node : DomNode) : DomNode :=
  if node.tagName = "A" then
    match getAttr node "href" with
    | none => node
    | some href =>
        if isHttpAbs href then
          let isReallyExternal : Bool :=
            if wpSiteUrl = "" then true
            else
              match urlHostname wpSiteUrl, urlHostname href with
              | some wpDomain, some linkDomain => decide (wpDomain ≠ linkDomain)
              | _, _ => true
          if isReallyExternal then
            setAttr (setAttr node "target" "_blank") "rel" "noopener noreferrer"
          else node
        else node
  else node

/-! The WordPress allow-list configuration and its consequence for scripts. -/

/-- ALLOWED_TAGS of WORDPRESS_CONFIG in sanitize.ts, transcribed verbatim. -/
def ALLOWED_TAGS : List String :=
  ["p", "br", "strong", "em", "u", "s", "a", "img", "h1", "h2", "h3", "h4", "h5", "h6",
   "ul", "ol", "li", "blockquote", "pre", "code", "div", "span", "table", "thead", "tbody",
   "tr", "th", "td", "figure", "figcaption", "iframe", "script"]

mutual
/-- Document node for the allow-list model: text or an element with children. -/
inductive HNode where
  | text : String → HNode
  | elem : String → HForest → HNode
/-- Sibling list of document nodes. -/
inductive HForest where
  | nil : HForest
  | cons : HNode → HForest → HForest
end

/-- Concatenation of sibling lists. -/
def happend : HForest → HForest → HForest
  | .nil, g => g
  | .cons n f, g => .cons n (happend f g)

mutual
/-- Modelled from the spec: the whitelist-based cleaning of the sanitizer
described in section 4.4 (the DOMPurify core is third-party code) - an element
whose tag is allow-listed is kept with its children cleaned; a non-listed
element is stripped but its content is preserved (KEEP_CONTENT); text is
preserved. -/
def purifyNode (allowed : List String) : HNode → HForest
  | .text s => .cons (.text s) .nil
  | .elem tag children =>
      if allowed.contains tag then .cons (.elem tag (purifyForest allowed children)) .nil
      else purifyForest allowed children
/-- Forest version of purifyNode. -/
def purifyForest (allowed : List String) : HForest → HForest
  | .nil => .nil
  | .cons n f => happend (purifyNode allowed n) (purifyForest allowed f)
end

mutual
/-- Number of elements with a given tag in a node. -/
def countTagNode (tag : String) : HNode → Nat
  | .text _ => 0
  | .elem tg children => (if tg == tag then 1 else 0) + countTagForest tag children
/-- Number of elements with a given tag in a forest. -/
def countTagForest (tag : String) : HForest → Nat
  | .nil => 0
  | .cons n f => countTagNode tag n + countTagForest tag f
end

/-! Analysis helpers (not part of the embedded code). -/

/-- Classifier responses the code treats as malformed: missing content, a JSON
parse failure, or a structure field that is not an array. -/
def isMalformed : ClassifierResp → Bool
  | .ok _ => false
  | _ => true

/-- Number of maximal contiguous runs of li items in a structure, given
whether a list container is already open when the scan starts. -/
def liRuns : List StructItem → Bool → Nat
  | [], _ => 0
  | item :: rest, inRun =>
      if item.type = "li" then (if inRun then 0 else 1) + liRuns rest true
      else liRuns rest false

/-- Number of chunks equal to a given string. -/
def countChunk (target : String) : List String → Nat
  | [] => 0
  | c :: rest => (if c == target then 1 else 0) + countChunk target rest

/-- Recognizer for emitted Gutenberg image blocks: only figureChunk output
starts with the wp:image comment opener. -/
def isFigChunk (s : String) : Bool :=
  hasPre ("\n<!-- wp:image".data) s.data

/-- Number of figure chunks in an emitted chunk list. -/
def countFigChunks : List String → Nat
  | [] => 0
  | c :: rest => (if isFigChunk c then 1 else 0) + countFigChunks rest

/-- Exception-free mirror of assembleGo, emitting the same chunks; on the one
throwing configuration (an image item whose index maps to a negative array
position) it emits nothing.  Related to assembleGo by the bridge theorems
below. -/
def assembleChunks (blocks : List String) (images : List ImageData) (cap : String → String) :
    List StructItem → Bool → List String
  | [], isInsideList => if isInsideList then ["</ul>\n"] else []
  | item :: rest, isInsideList =>
      if item.type = "li" then
        (if isInsideList then [] else ["<ul>\n"]) ++
          ((match item.blockIndex with
            | some i =>
                if i < (blocks.length : Int) then ["  <li>" ++ jsIndex blocks i ++ "</li>\n"]
                else []
            | none => []) ++
            assembleChunks blocks images cap rest true)
      else
        (if isInsideList then ["</ul>\n"] else []) ++
          (if item.type = "p" ∨ item.type = "h2" ∨ item.type = "h3" then
            (match item.blockIndex with
              | some i =>
                  if i < (blocks.length : Int) then
                    ["<" ++ item.type ++ ">" ++ jsIndex blocks i ++ "</" ++ item.type ++ ">\n"]
                  else []
              | none => []) ++
              assembleChunks blocks images cap rest false
          else if item.type = "table" then
            (match item.blockIndex with
              | some i =>
                  if i < (blocks.length : Int) then
                    ["\n<!-- wp:html -->\n" ++ jsIndex blocks i ++ "\n<!-- /wp:html -->\n"]
                  else []
              | none => []) ++
              assembleChunks blocks images cap rest false
          else if item.type = "image" then
            (match item.imageIndex with
              | some m =>
                  if m - 1 < (images.length : Int) then
                    if m - 1 < 0 then []
                    else [figureChunk cap (images.getD (m - 1).toNat ⟨"", "", none⟩)]
                  else []
              | none => []) ++
              assembleChunks blocks images cap rest false
          else assembleChunks blocks images cap rest false)

/-- List-state flag after processing one item: inside a list exactly when the
item is a list item. -/
def nextInside (item : StructItem) : Bool :=
  if item.type = "li" then true else false

/-- Container chunks emitted before an item: a list opener when a li item
starts a run, a list closer when a non-li item ends one. -/
def preChunks (item : StructItem) (isInsideList : Bool) : List String :=
  if item.type = "li" then (if isInsideList then [] else ["<ul>\n"])
  else (if isInsideList then ["</ul>\n"] else [])

/-- Content chunks emitted for one item (zero or one chunk). -/
def midChunks (blocks : List String) (images : List ImageData) (cap : String → String)
    (item : StructItem) : List String :=
  if item.type = "li" then
    match item.blockIndex with
    | some i =>
        if i < (blocks.length : Int) then ["  <li>" ++ jsIndex blocks i ++ "</li>\n"] else []
    | none => []
  else if item.type = "p" ∨ item.type = "h2" ∨ item.type = "h3" then
    match item.blockIndex with
    | some i =>
        if i < (blocks.length : Int) then
          ["<" ++ item.type ++ ">" ++ jsIndex blocks i ++ "</" ++ item.type ++ ">\n"]
        else []
    | none => []
  else if item.type = "table" then
    match item.blockIndex with
    | some i =>
        if i < (blocks.length : Int) then
          ["\n<!-- wp:html -->\n" ++ jsIndex blocks i ++ "\n<!-- /wp:html -->\n"]
        else []
    | none => []
  else if item.type = "image" then
    match item.imageIndex with
    | some m =>
        if m - 1 < (images.length : Int) then
          if m - 1 < 0 then []
          else [figureChunk cap (images.getD (m - 1).toNat ⟨"", "", none⟩)]
        else []
    | none => []
  else []

/-- Absence of the one throwing configuration in a structure: no image item
whose index passes the length guard but maps to a negative array position. -/
def noThrow (images : List ImageData) (items : List StructItem) : Bool :=
  items.all (fun it =>
    !(it.type == "image" &&
      (match it.imageIndex with
        | some m => decide (m - 1 < (images.length : Int)) && decide (m - 1 < 0)
        | none => false)))

/-! Theorems. -/

/-- Helper: the empty string contains no nonempty substring. -/
theorem empty_no_sub (mid : String) (hm : mid.data ≠ []) :
    ∀ pre post : String, "" ≠ pre ++ mid ++ post := by
  intro pre post h
  have h2 := congrArg String.length h
  rw [String.length_append, String.length_append] at h2
  have h0 : ("" : String).length = 0 := rfl
  rw [h0] at h2
  have hml : 0 < mid.length := by
    rw [String.length]
    exact List.length_pos.mpr hm
  omega

/-- C1: on the empty classifier structure over one block, formatArticleHtml
returns empty HTML, so the unreferenced block 0 is not appended as a paragraph
(nor rendered at all) - the assembly loop has no block-coverage validation. -/
theorem c1_unreferenced_block_dropped :
    formatArticleHtml ["hello"] [] (ClassifierResp.ok []) (fun _ => "cap") = Except.ok "" ∧
    ∀ pre post : String, "" ≠ pre ++ "hello" ++ post := by
  refine ⟨rfl, empty_no_sub "hello" ?_⟩
  intro h
  exact absurd (congrArg List.length h) (by decide)

/-- C2: when sanitizeHtml throws, the stage-4 catch of runJob swallows the
failure, carries the pre-sanitization HTML forward, publishes it, and the job
still finishes in DONE - sanitize failure is not fatal and unsanitized HTML is
sent to WordPress, contrary to the stated policy. -/
theorem c2_sanitize_failure_swallowed (text rawHtml : String) (fmt : Except String String)
    (wid : String → String) (e : String)
    (hnb : (jsTrim (stage3 rawHtml fmt)).length ≠ 0) :
    runJobHtmlFlow text rawHtml fmt (fun _ => Except.error e) wid (fun _ => Except.ok ()) =
      { sentToWordpress := some (stage3 rawHtml fmt), status := "DONE" } := by
  unfold runJobHtmlFlow stage4 emptyGuard
  simp [hnb]

/-- Witness for c2_sanitize_failure_swallowed: a job whose formatting failed
and whose sanitizer throws publishes the raw parser HTML unsanitized and ends
DONE. -/
theorem c2_sanitize_failure_swallowed_witness :
    runJobHtmlFlow "text" "<p>raw unsanitized</p>" (Except.error "format failed")
        (fun _ => Except.error "sanitize crashed") (fun s => s) (fun _ => Except.ok ()) =
      { sentToWordpress := some "<p>raw unsanitized</p>", status := "DONE" } :=
  c2_sanitize_failure_swallowed "text" "<p>raw unsanitized</p>" (Except.error "format failed")
    (fun s => s) "sanitize crashed" (by decide)

/-- C3: on a malformed classifier response (here: empty completion content)
formatArticleHtml does not fall back to the identity structure - it raises the
error past the formatting stage, returning no HTML at all. -/
theorem c3_malformed_response_raises :
    formatArticleHtml ["hello"] [] ClassifierResp.noContent (fun _ => "cap") =
      Except.error "AI returned an empty structure response." ∧
    ∀ out : String, formatArticleHtml ["hello"] [] ClassifierResp.noContent (fun _ => "cap") ≠
      Except.ok out := by
  refine ⟨rfl, ?_⟩
  intro out h
  exact Except.noConfusion h

/-- C3 amended: a malformed or unparseable classifier response makes
formatArticleHtml throw, and it is the orchestrator stage-3 wrapper in runJob
that catches the error and falls back to the original parsed raw HTML. -/
theorem c3_amended_orchestrator_fallback (blocks : List String) (images : List ImageData)
    (cap : String → String) (rawHtml : String) (resp : ClassifierResp)
    (h : isMalformed resp = true) :
    (∃ e, formatArticleHtml blocks images resp cap = Except.error e) ∧
    stage3 rawHtml (formatArticleHtml blocks images resp cap) = rawHtml := by
  cases resp with
  | noContent => exact ⟨⟨_, rfl⟩, rfl⟩
  | badJson msg => exact ⟨⟨_, rfl⟩, rfl⟩
  | notArray => exact ⟨⟨_, rfl⟩, rfl⟩
  | ok st => exact absurd h (by simp [isMalformed])

/-- Witness for c3_amended_orchestrator_fallback at a concrete malformed
response. -/
theorem c3_amended_orchestrator_fallback_witness :
    (∃ e, formatArticleHtml ["hello"] [] ClassifierResp.notArray (fun _ => "cap") =
      Except.error e) ∧
    stage3 "<p>raw</p>" (formatArticleHtml ["hello"] [] ClassifierResp.notArray
      (fun _ => "cap")) = "<p>raw</p>" :=
  c3_amended_orchestrator_fallback ["hello"] [] (fun _ => "cap") "<p>raw</p>"
    ClassifierResp.notArray (by decide)

/-- C4: with one available image and the empty classifier structure, the
auto-insert pass finds no content block to anchor the missing image on and
silently skips it: the final HTML is empty and image 1 is rendered zero times,
not exactly once. -/
theorem c4_image_dropped_on_empty_structure :
    formatArticleHtml ["b"] [{ source_url := "u", prompt := "pr" }] (ClassifierResp.ok [])
      (fun _ => "cap") = Except.ok "" ∧
    ∀ pre post : String, "" ≠ pre ++ "<figure" ++ post := by
  refine ⟨rfl, empty_no_sub "<figure" ?_⟩
  intro h
  exact absurd (congrArg List.length h) (by decide)

/-- C7: the cited findBestWidget applies a universal fallback to the top
position as well - with a catalog whose only widget is the zero-scoring
universal-fallback-top, the top position selects it instead of selecting no
widget, refuting the bottom-position-only clause. -/
theorem c7_top_fallback_selected :
    findBestWidget [⟨"universal-fallback-top", "T", "top", [], "X"⟩] ["a"] "top" =
      some ⟨"universal-fallback-top", "T", "top", [], "X"⟩ ∧
    widgetScore ["a"] ⟨"universal-fallback-top", "T", "top", [], "X"⟩ = 0 := by
  exact ⟨rfl, rfl⟩

/-- C9: sanitizeHtml is not idempotent.  The restore pass uses
String.prototype.replace with a string replacement, which expands dollar
patterns: a Gutenberg comment containing the two characters dollar-dollar
followed by an ampersand collapses to dollar-ampersand on the first pass and
then to the placeholder text itself on the second pass.  The DOMPurify core is
instantiated with the identity function, faithful here because on both passes
the text it receives is the bare placeholder word, which sanitization leaves
unchanged. -/
theorem c9_sanitize_not_idempotent :
    sanitizeHtml id (sanitizeHtml id "<!-- wp:a $$& -->") ≠
      sanitizeHtml id "<!-- wp:a $$& -->" := by
  intro h
  have e1 : sanitizeHtml id "<!-- wp:a $$& -->" = "<!-- wp:a $& -->" := rfl
  have e2 : sanitizeHtml id "<!-- wp:a $& -->" = "<!-- wp:a __GUTENBERG_COMMENT_0__ -->" := rfl
  rw [e1, e2] at h
  exact absurd h (by decide)

/-- Helper: a scan that collected no comments left the input unchanged. -/
theorem gbScan_no_comments :
    ∀ (fuel : Nat) (l : List Char) (count : Nat),
      (gbScan fuel l count).2 = [] → (gbScan fuel l count).1 = l := by
  intro fuel
  induction fuel with
  | zero => intro l count _; rfl
  | succ n ih =>
      intro l count h
      cases l with
      | nil => rfl
      | cons c rest =>
          cases hm : gbMatchLen (c :: rest) with
          | some k => simp [gbScan, hm] at h
          | none =>
              simp only [gbScan, hm] at h ⊢
              exact congrArg (c :: ·) (ih rest count h)

/-- Helper: extraction with no Gutenberg comments is the identity. -/
theorem extractGutenberg_no_comments (s : String) (h : (extractGutenberg s).2 = []) :
    (extractGutenberg s).1 = s := by
  unfold extractGutenberg at h ⊢
  exact congrArg String.mk (gbScan_no_comments s.data.length s.data 0 h)

/-- Helper: on inputs without Gutenberg comments, sanitizeHtml is exactly the
purify core. -/
theorem sanitizeHtml_no_comments (purify : String → String) (x : String)
    (h : (extractGutenberg x).2 = []) : sanitizeHtml purify x = purify x := by
  show restoreComments (purify (extractGutenberg x).1) (extractGutenberg x).2 = purify x
  rw [extractGutenberg_no_comments x h, h]
  rfl

/-- C9 amended: sanitizeHtml is idempotent on every input such that neither it
nor its purified form contains a Gutenberg comment, provided the DOMPurify
core is idempotent - on such inputs sanitizeHtml coincides with the core. -/
theorem c9_amended_idempotent_without_comments (purify : String → String) (x : String)
    (h1 : (extractGutenberg x).2 = [])
    (h2 : (extractGutenberg (purify x)).2 = [])
    (h3 : purify (purify x) = purify x) :
    sanitizeHtml purify (sanitizeHtml purify x) = sanitizeHtml purify x := by
  rw [sanitizeHtml_no_comments purify x h1, sanitizeHtml_no_comments purify (purify x) h2, h3]

/-- Witness for c9_amended_idempotent_without_comments on plain HTML with the
identity core. -/
theorem c9_amended_idempotent_without_comments_witness :
    sanitizeHtml id (sanitizeHtml id "<p>hello</p>") = sanitizeHtml id "<p>hello</p>" :=
  c9_amended_idempotent_without_comments id "<p>hello</p>" rfl rfl rfl

/-- Helper: tag counting distributes over forest concatenation. -/
theorem count_happend (tag : String) :
    (a b : HForest) →
      countTagForest tag (happend a b) = countTagForest tag a + countTagForest tag b
  | .nil, b => by simp [happend, countTagForest]
  | .cons n f, b => by
      simp [happend, countTagForest, count_happend tag f b, Nat.add_assoc]

mutual
/-- Helper: cleaning preserves the number of elements carrying an allow-listed
tag (node version). -/
theorem purify_count_node (allowed : List String) (tag : String)
    (h : allowed.contains tag = true) :
    (n : HNode) → countTagForest tag (purifyNode allowed n) = countTagNode tag n
  | .text s => by simp [purifyNode, countTagForest, countTagNode]
  | .elem tg ch => by
      by_cases hc : allowed.contains tg = true
      · have hm : tg ∈ allowed := by simpa using hc
        simp [purifyNode, hm, countTagForest, countTagNode,
          purify_count_forest allowed tag h ch]
      · have hm : ¬ tg ∈ allowed := by simpa using hc
        have htg : tg ≠ tag := by
          intro e
          rw [e] at hc
          exact hc h
        simp [purifyNode, hm, countTagNode, htg, purify_count_forest allowed tag h ch]
/-- Helper: cleaning preserves the number of elements carrying an allow-listed
tag (forest version). -/
theorem purify_count_forest (allowed : List String) (tag : String)
    (h : allowed.contains tag = true) :
    (f : HForest) → countTagForest tag (purifyForest allowed f) = countTagForest tag f
  | .nil => by simp [purifyForest]
  | .cons n f => by
      simp [purifyForest, countTagForest, count_happend,
        purify_count_node allowed tag h n, purify_count_forest allowed tag h f]
end

/-- C10: the allow-list of WORDPRESS_CONFIG retains script and iframe, so the
whitelist cleaning keeps every script and every iframe element wherever it
occurs in the document tree, not only inside raw-passthrough blocks. -/
theorem c10_scripts_survive_sanitization :
    ("script" ∈ ALLOWED_TAGS ∧ "iframe" ∈ ALLOWED_TAGS) ∧
    (∀ f : HForest,
      countTagForest "script" (purifyForest ALLOWED_TAGS f) = countTagForest "script" f) ∧
    (∀ f : HForest,
      countTagForest "iframe" (purifyForest ALLOWED_TAGS f) = countTagForest "iframe" f) := by
  refine ⟨⟨by simp [ALLOWED_TAGS], by simp [ALLOWED_TAGS]⟩, ?_, ?_⟩
  · exact fun f => purify_count_forest ALLOWED_TAGS "script" rfl f
  · exact fun f => purify_count_forest ALLOWED_TAGS "iframe" rfl f

/-- Helper: overwriting an attribute list entry in place does not affect
lookups of a different key. -/
theorem lookup_map_set_ne (attrs : List (String × String)) (k v k' : String) (h : k' ≠ k) :
    lookupAttr k' (attrs.map (fun p => if p.1 = k then (k, v) else p)) =
      lookupAttr k' attrs := by
  induction attrs with
  | nil => rfl
  | cons a as ih =>
      by_cases ha : a.1 = k
      · have hkk : ¬(k = k') := fun e => h e.symm
        have hk2 : ¬(a.1 = k') := by
          rw [ha]
          exact hkk
        rw [List.map_cons, if_pos ha]
        simp only [lookupAttr]
        rw [if_neg hkk, if_neg hk2, ih]
      · rw [List.map_cons, if_neg ha]
        by_cases hb : a.1 = k'
        · simp only [lookupAttr]
          rw [if_pos hb, if_pos hb]
        · simp only [lookupAttr]
          rw [if_neg hb, if_neg hb, ih]

/-- Helper: appending an attribute with a different key does not affect
lookups of another key that may or may not be present. -/
theorem lookup_append_ne (attrs : List (String × String)) (k v k' : String) (h : k' ≠ k) :
    lookupAttr k' (attrs ++ [(k, v)]) = lookupAttr k' attrs := by
  induction attrs with
  | nil =>
      have hk : k ≠ k' := fun e => h e.symm
      simp [lookupAttr, hk]
  | cons a as ih =>
      by_cases hb : a.1 = k'
      · simp [lookupAttr, hb]
      · simp [lookupAttr, hb, ih]

/-- Helper: overwriting the entries of an existing key makes its lookup return
the new value. -/
theorem lookup_map_set_self (attrs : List (String × String)) (k v : String)
    (h : hasAttr k attrs = true) :
    lookupAttr k (attrs.map (fun p => if p.1 = k then (k, v) else p)) = some (k, v) := by
  induction attrs with
  | nil => simp [hasAttr] at h
  | cons a as ih =>
      by_cases ha : a.1 = k
      · rw [List.map_cons, if_pos ha]
        simp [lookupAttr]
      · have h2 : hasAttr k as = true := by
          rw [hasAttr, if_neg ha] at h
          exact h
        rw [List.map_cons, if_neg ha]
        simp only [lookupAttr]
        rw [if_neg ha, ih h2]

/-- Helper: appending a key absent from the list makes its lookup return the
appended value. -/
theorem lookup_append_self (attrs : List (String × String)) (k v : String)
    (h : hasAttr k attrs = false) :
    lookupAttr k (attrs ++ [(k, v)]) = some (k, v) := by
  induction attrs with
  | nil => simp [lookupAttr]
  | cons a as ih =>
      by_cases ha : a.1 = k
      · rw [hasAttr, if_pos ha] at h
        exact absurd h (by simp)
      · have h2 : hasAttr k as = false := by
          rw [hasAttr, if_neg ha] at h
          exact h
        simp [lookupAttr, ha, ih h2]

/-- Helper: getAttribute after setAttribute of the same key. -/
theorem getAttr_setAttr_self (n : DomNode) (k v : String) :
    getAttr (setAttr n k v) k = some v := by
  unfold getAttr setAttr
  cases hany : hasAttr k n.attrs with
  | true => simp [hany, lookup_map_set_self n.attrs k v hany]
  | false => simp [hany, lookup_append_self n.attrs k v hany]

/-- Helper: getAttribute after setAttribute of a different key. -/
theorem getAttr_setAttr_ne (n : DomNode) (k v k' : String) (h : k' ≠ k) :
    getAttr (setAttr n k v) k' = getAttr n k' := by
  unfold getAttr setAttr
  cases hany : hasAttr k n.attrs with
  | true => simp [hany, lookup_map_set_ne n.attrs k v k' h]
  | false => simp [hany, lookup_append_ne n.attrs k v k' h]

/-- C8: the afterSanitizeAttributes hook sets target equal to _blank and rel
equal to noopener noreferrer exactly on anchors with an absolute http(s) href
whose hostname differs from the configured site hostname; same-domain anchors
and anchors whose href is not absolute http(s) (relative, mailto:, tel:,
fragment) are returned with their attributes untouched. -/
theorem c8_external_link_rewrite (wpSiteUrl : String) :
    (∀ (node : DomNode) (href wpDomain linkDomain : String),
      node.tagName = "A" → getAttr node "href" = some href → isHttpAbs href = true →
      urlHostname wpSiteUrl = some wpDomain → urlHostname href = some linkDomain →
      wpDomain ≠ linkDomain →
      getAttr (processAnchor wpSiteUrl node) "target" = some "_blank" ∧
      getAttr (processAnchor wpSiteUrl node) "rel" = some "noopener noreferrer") ∧
    (∀ (node : DomNode) (href sharedDomain : String),
      getAttr node "href" = some href →
      urlHostname wpSiteUrl = some sharedDomain → urlHostname href = some sharedDomain →
      processAnchor wpSiteUrl node = node) ∧
    (∀ (node : DomNode) (href : String),
      getAttr node "href" = some href → isHttpAbs href = false →
      processAnchor wpSiteUrl node = node) := by
  have hempty : ∀ d : String, urlHostname wpSiteUrl = some d → ¬(wpSiteUrl = "") := by
    intro d hd e
    rw [e] at hd
    have h0 : urlHostname "" = none := by decide
    rw [h0] at hd
    exact Option.noConfusion hd
  refine ⟨?_, ?_, ?_⟩
  · intro node href wpDomain linkDomain htag hhref habs hwp hld hne
    have hwpne := hempty wpDomain hwp
    have hd : decide (wpDomain ≠ linkDomain) = true := decide_eq_true hne
    simp only [processAnchor, htag, if_true, hhref, habs, if_neg hwpne, hwp, hld, hd, if_pos]
    constructor
    · rw [getAttr_setAttr_ne _ _ _ _ (by decide), getAttr_setAttr_self]
    · rw [getAttr_setAttr_self]
  · intro node href sharedDomain hhref hwp hld
    have hwpne := hempty sharedDomain hwp
    by_cases htag : node.tagName = "A"
    · by_cases habs : isHttpAbs href = true
      · have hd : decide (sharedDomain ≠ sharedDomain) = false := by simp
        simp only [processAnchor, htag, if_true, hhref, habs, if_neg hwpne, hwp, hld, hd]
        simp
      · simp only [processAnchor, htag, if_true, hhref]
        simp [habs]
    · simp [processAnchor, htag]
  · intro node href hhref habs
    by_cases htag : node.tagName = "A"
    · simp only [processAnchor, htag, if_true, hhref]
      simp [habs]
    · simp [processAnchor, htag]

/-- Witness for c8_external_link_rewrite: a foreign-domain anchor gets the two
security attributes injected. -/
theorem c8_external_link_rewrite_witness :
    getAttr (processAnchor "https://example.com"
        ⟨"A", [("href", "https://other.org/x")]⟩) "target" = some "_blank" ∧
    getAttr (processAnchor "https://example.com"
        ⟨"A", [("href", "https://other.org/x")]⟩) "rel" = some "noopener noreferrer" :=
  (c8_external_link_rewrite "https://example.com").1
    ⟨"A", [("href", "https://other.org/x")]⟩ "https://other.org/x" "example.com" "other.org"
    rfl (by decide) (by decide) (by decide) (by decide) (by decide)

/-- Helper: a successful assembly emits exactly the chunks of the pure
mirror. -/
theorem assembleGo_ok_chunks (blocks : List String) (images : List ImageData)
    (cap : String → String) :
    ∀ (items : List StructItem) (inside : Bool) (cs : List String),
      assembleGo blocks images cap items inside = .ok cs →
      cs = assembleChunks blocks images cap items inside := by
  intro items
  induction items with
  | nil =>
      intro inside cs h
      simp only [assembleGo] at h
      injection h with h
      simp only [assembleChunks]
      exact h.symm
  | cons item rest ih =>
      intro inside cs h
      simp only [assembleGo] at h
      simp only [assembleChunks]
      by_cases hli : item.type = "li"
      · simp only [if_pos hli] at h ⊢
        cases hrec : assembleGo blocks images cap rest true with
        | error e => rw [hrec] at h; cases h
        | ok cs0 =>
            rw [hrec] at h
            injection h with h
            rw [← h, ih true cs0 hrec]
      · simp only [if_neg hli] at h ⊢
        by_cases hp : item.type = "p" ∨ item.type = "h2" ∨ item.type = "h3"
        · simp only [if_pos hp] at h ⊢
          cases hrec : assembleGo blocks images cap rest false with
          | error e => rw [hrec] at h; cases h
          | ok cs0 =>
              rw [hrec] at h
              injection h with h
              rw [← h, ih false cs0 hrec]
        · simp only [if_neg hp] at h ⊢
          by_cases ht : item.type = "table"
          · simp only [if_pos ht] at h ⊢
            cases hrec : assembleGo blocks images cap rest false with
            | error e => rw [hrec] at h; cases h
            | ok cs0 =>
                rw [hrec] at h
                injection h with h
                rw [← h, ih false cs0 hrec]
          · simp only [if_neg ht] at h ⊢
            by_cases him : item.type = "image"
            · simp only [if_pos him] at h ⊢
              cases hmi : item.imageIndex with
              | none =>
                  simp only [hmi] at h ⊢
                  cases hrec : assembleGo blocks images cap rest false with
                  | error e => rw [hrec] at h; cases h
                  | ok cs0 =>
                      rw [hrec] at h
                      injection h with h
                      rw [← h, ih false cs0 hrec]
                      simp
              | some m =>
                  simp only [hmi] at h ⊢
                  by_cases hlen : ((m - 1 : Int) < (images.length : Int))
                  · simp only [if_pos hlen] at h ⊢
                    by_cases hneg : ((m - 1 : Int) < 0)
                    · simp only [if_pos hneg] at h
                      cases h
                    · simp only [if_neg hneg] at h ⊢
                      cases hrec : assembleGo blocks images cap rest false with
                      | error e => rw [hrec] at h; cases h
                      | ok cs0 =>
                          rw [hrec] at h
                          injection h with h
                          rw [← h, ih false cs0 hrec]
                  · simp only [if_neg hlen] at h ⊢
                    cases hrec : assembleGo blocks images cap rest false with
                    | error e => rw [hrec] at h; cases h
                    | ok cs0 =>
                        rw [hrec] at h
                        injection h with h
                        rw [← h, ih false cs0 hrec]
                        simp
            · simp only [if_neg him] at h ⊢
              cases hrec : assembleGo blocks images cap rest false with
              | error e => rw [hrec] at h; cases h
              | ok cs0 =>
                  rw [hrec] at h
                  injection h with h
                  rw [← h, ih false cs0 hrec]

/-- Helper: a structure without the throwing configuration assembles
successfully, to exactly the chunks of the pure mirror. -/
theorem assembleGo_of_noThrow (blocks : List String) (images : List ImageData)
    (cap : String → String) :
    ∀ (items : List StructItem) (inside : Bool), noThrow images items = true →
      assembleGo blocks images cap items inside =
        .ok (assembleChunks blocks images cap items inside) := by
  intro items
  induction items with
  | nil => intro inside _; rfl
  | cons item rest ih =>
      intro inside hnt
      have hnt2 : noThrow images rest = true := by
        rw [noThrow, List.all_cons] at hnt
        exact (Bool.and_eq_true_iff.mp hnt).2
      have hhead := (Bool.and_eq_true_iff.mp (by rw [noThrow, List.all_cons] at hnt; exact hnt)).1
      simp only [assembleGo, assembleChunks]
      by_cases hli : item.type = "li"
      · simp only [if_pos hli, ih true hnt2]
      · simp only [if_neg hli]
        by_cases hp : item.type = "p" ∨ item.type = "h2" ∨ item.type = "h3"
        · simp only [if_pos hp, ih false hnt2]
        · simp only [if_neg hp]
          by_cases ht : item.type = "table"
          · simp only [if_pos ht, ih false hnt2]
          · simp only [if_neg ht]
            by_cases him : item.type = "image"
            · simp only [if_pos him]
              cases hmi : item.imageIndex with
              | none =>
                  simp only [hmi, ih false hnt2]
                  simp
              | some m =>
                  simp only [hmi]
                  by_cases hlen : ((m - 1 : Int) < (images.length : Int))
                  · simp only [if_pos hlen]
                    by_cases hneg : ((m - 1 : Int) < 0)
                    · exact absurd hhead (by simp [him, hmi, hlen, hneg])
                    · simp only [if_neg hneg, ih false hnt2]
                  · simp only [if_neg hlen, ih false hnt2]
                    simp
            · simp only [if_neg him, ih false hnt2]

/-- Helper: one step of the pure mirror decomposes into container chunks,
content chunks and the tail. -/
theorem assembleChunks_cons (blocks : List String) (images : List ImageData)
    (cap : String → String) (item : StructItem) (rest : List StructItem) (inside : Bool) :
    assembleChunks blocks images cap (item :: rest) inside =
      preChunks item inside ++
        (midChunks blocks images cap item ++
          assembleChunks blocks images cap rest (nextInside item)) := by
  simp only [assembleChunks, preChunks, midChunks, nextInside]
  by_cases hli : item.type = "li"
  · simp only [if_pos hli]
  · simp only [if_neg hli]
    by_cases hp : item.type = "p" ∨ item.type = "h2" ∨ item.type = "h3"
    · simp only [if_pos hp]
    · simp only [if_neg hp]
      by_cases ht : item.type = "table"
      · simp only [if_pos ht]
      · simp only [if_neg ht]
        by_cases him : item.type = "image"
        · simp only [if_pos him]
        · simp only [if_neg him]
          simp

/-- Helper: chunk counting distributes over concatenation. -/
theorem countChunk_append (t : String) (a b : List String) :
    countChunk t (a ++ b) = countChunk t a + countChunk t b := by
  induction a with
  | nil => simp [countChunk]
  | cons c cs ih => simp [countChunk, ih, Nat.add_assoc]

/-- Helper: list openers among the container chunks of one item. -/
theorem count_open_pre (item : StructItem) (inside : Bool) :
    countChunk "<ul>\n" (preChunks item inside) =
      if item.type = "li" then (if inside then 0 else 1) else 0 := by
  unfold preChunks
  by_cases hli : item.type = "li" <;> cases inside <;> simp [hli, countChunk]

/-- Helper: list closers among the container chunks of one item. -/
theorem count_close_pre (item : StructItem) (inside : Bool) :
    countChunk "</ul>\n" (preChunks item inside) =
      if item.type = "li" then 0 else (if inside then 1 else 0) := by
  unfold preChunks
  by_cases hli : item.type = "li" <;> cases inside <;> simp [hli, countChunk]

/-- Helper: a single chunk different from the target counts zero. -/
theorem countChunk_singleton (t c : String) (h : (c == t) = false) : countChunk t [c] = 0 := by
  simp [countChunk, h]

/-- Helper: content chunks contain no container chunk. -/
theorem count_mid_zero (blocks : List String) (images : List ImageData)
    (cap : String → String) (item : StructItem) :
    countChunk "<ul>\n" (midChunks blocks images cap item) = 0 ∧
    countChunk "</ul>\n" (midChunks blocks images cap item) = 0 := by
  have eli : ∀ x : String, (("  <li>" ++ x ++ "</li>\n") == "<ul>\n") = false := fun _ => rfl
  have eli2 : ∀ x : String, (("  <li>" ++ x ++ "</li>\n") == "</ul>\n") = false := fun _ => rfl
  have ep : ∀ x : String, (("<" ++ "p" ++ ">" ++ x ++ "</" ++ "p" ++ ">\n") == "<ul>\n") = false :=
    fun _ => rfl
  have ep2 : ∀ x : String, (("<" ++ "p" ++ ">" ++ x ++ "</" ++ "p" ++ ">\n") == "</ul>\n") = false :=
    fun _ => rfl
  have eh2 : ∀ x : String, (("<" ++ "h2" ++ ">" ++ x ++ "</" ++ "h2" ++ ">\n") == "<ul>\n") = false :=
    fun _ => rfl
  have eh2b : ∀ x : String, (("<" ++ "h2" ++ ">" ++ x ++ "</" ++ "h2" ++ ">\n") == "</ul>\n") = false :=
    fun _ => rfl
  have eh3 : ∀ x : String, (("<" ++ "h3" ++ ">" ++ x ++ "</" ++ "h3" ++ ">\n") == "<ul>\n") = false :=
    fun _ => rfl
  have eh3b : ∀ x : String, (("<" ++ "h3" ++ ">" ++ x ++ "</" ++ "h3" ++ ">\n") == "</ul>\n") = false :=
    fun _ => rfl
  have etb : ∀ x : String,
      (("\n<!-- wp:html -->\n" ++ x ++ "\n<!-- /wp:html -->\n") == "<ul>\n") = false := fun _ => rfl
  have etb2 : ∀ x : String,
      (("\n<!-- wp:html -->\n" ++ x ++ "\n<!-- /wp:html -->\n") == "</ul>\n") = false := fun _ => rfl
  have efg : ∀ img : ImageData, ((figureChunk cap img) == "<ul>\n") = false := fun _ => rfl
  have efg2 : ∀ img : ImageData, ((figureChunk cap img) == "</ul>\n") = false := fun _ => rfl
  unfold midChunks
  by_cases hli : item.type = "li"
  · simp only [if_pos hli]
    cases hbi : item.blockIndex with
    | none => exact ⟨rfl, rfl⟩
    | some i =>
        by_cases hlt : (i < (blocks.length : Int))
        · simp only [if_pos hlt]
          exact ⟨countChunk_singleton _ _ (eli _), countChunk_singleton _ _ (eli2 _)⟩
        · simp only [if_neg hlt]
          exact ⟨rfl, rfl⟩
  · simp only [if_neg hli]
    by_cases hp : item.type = "p" ∨ item.type = "h2" ∨ item.type = "h3"
    · simp only [if_pos hp]
      cases hbi : item.blockIndex with
      | none => exact ⟨rfl, rfl⟩
      | some i =>
          by_cases hlt : (i < (blocks.length : Int))
          · simp only [if_pos hlt]
            rcases hp with h | h | h
            · rw [h]
              exact ⟨countChunk_singleton _ _ (ep _), countChunk_singleton _ _ (ep2 _)⟩
            · rw [h]
              exact ⟨countChunk_singleton _ _ (eh2 _), countChunk_singleton _ _ (eh2b _)⟩
            · rw [h]
              exact ⟨countChunk_singleton _ _ (eh3 _), countChunk_singleton _ _ (eh3b _)⟩
          · simp only [if_neg hlt]
            exact ⟨rfl, rfl⟩
    · simp only [if_neg hp]
      by_cases ht : item.type = "table"
      · simp only [if_pos ht]
        cases hbi : item.blockIndex with
        | none => exact ⟨rfl, rfl⟩
        | some i =>
            by_cases hlt : (i < (blocks.length : Int))
            · simp only [if_pos hlt]
              exact ⟨countChunk_singleton _ _ (etb _), countChunk_singleton _ _ (etb2 _)⟩
            · simp only [if_neg hlt]
              exact ⟨rfl, rfl⟩
      · simp only [if_neg ht]
        by_cases him : item.type = "image"
        · simp only [if_pos him]
          cases hmi : item.imageIndex with
          | none => exact ⟨rfl, rfl⟩
          | some m =>
              by_cases hlen : ((m - 1 : Int) < (images.length : Int))
              · simp only [if_pos hlen]
                by_cases hneg : ((m - 1 : Int) < 0)
                · simp only [if_pos hneg]
                  exact ⟨rfl, rfl⟩
                · simp only [if_neg hneg]
                  exact ⟨countChunk_singleton _ _ (efg _), countChunk_singleton _ _ (efg2 _)⟩
              · simp only [if_neg hlen]
                exact ⟨rfl, rfl⟩
        · simp only [if_neg him]
          exact ⟨rfl, rfl⟩

/-- Helper: container-chunk counts of the pure mirror equal the number of li
runs (and every opened container is closed). -/
theorem chunks_ul_count (blocks : List String) (images : List ImageData)
    (cap : String → String) :
    ∀ (items : List StructItem) (inside : Bool),
      countChunk "<ul>\n" (assembleChunks blocks images cap items inside) =
        liRuns items inside ∧
      countChunk "</ul>\n" (assembleChunks blocks images cap items inside) =
        liRuns items inside + (if inside then 1 else 0) := by
  intro items
  induction items with
  | nil => intro inside; cases inside <;> exact ⟨rfl, rfl⟩
  | cons item rest ih =>
      intro inside
      obtain ⟨iho, ihc⟩ := ih (nextInside item)
      obtain ⟨mo, mc⟩ := count_mid_zero blocks images cap item
      rw [assembleChunks_cons]
      constructor
      · rw [countChunk_append, countChunk_append, iho, mo, count_open_pre]
        by_cases hli : item.type = "li" <;> cases inside <;>
          simp [liRuns, nextInside, hli]
      · rw [countChunk_append, countChunk_append, ihc, mc, count_close_pre]
        by_cases hli : item.type = "li" <;> cases inside <;>
          simp [liRuns, nextInside, hli] <;> omega

/-- C6: for every structure array that assembles successfully, the number of
emitted list openers and the number of emitted list closers both equal the
number of maximal contiguous li runs - each run gets exactly one container and
every container is closed; in particular the structure [li, li, p, li] yields
exactly two containers, the first with two items and the second with one. -/
theorem c6_list_runs :
    (∀ (blocks : List String) (images : List ImageData) (cap : String → String)
        (st : List StructItem) (cs : List String),
      assembleGo blocks images cap st false = Except.ok cs →
      countChunk "<ul>\n" cs = liRuns st false ∧
      countChunk "</ul>\n" cs = liRuns st false) ∧
    assembleGo ["A", "B", "C", "D"] [] (fun _ => "cap")
        [⟨"li", some 0, none⟩, ⟨"li", some 1, none⟩, ⟨"p", some 2, none⟩, ⟨"li", some 3, none⟩]
        false =
      Except.ok ["<ul>\n", "  <li>A</li>\n", "  <li>B</li>\n", "</ul>\n", "<p>C</p>\n",
        "<ul>\n", "  <li>D</li>\n", "</ul>\n"] := by
  constructor
  · intro blocks images cap st cs h
    rw [assembleGo_ok_chunks blocks images cap st false cs h]
    have h2 := chunks_ul_count blocks images cap st false
    simpa using h2
  · rfl

/-- Witness for c6_list_runs: the counts on the concrete [li, li, p, li]
structure, via the general part applied to the concrete assembly. -/
theorem c6_list_runs_witness :
    countChunk "<ul>\n" ["<ul>\n", "  <li>A</li>\n", "  <li>B</li>\n", "</ul>\n",
        "<p>C</p>\n", "<ul>\n", "  <li>D</li>\n", "</ul>\n"] =
      liRuns [⟨"li", some 0, none⟩, ⟨"li", some 1, none⟩, ⟨"p", some 2, none⟩,
        ⟨"li", some 3, none⟩] false ∧
    countChunk "</ul>\n" ["<ul>\n", "  <li>A</li>\n", "  <li>B</li>\n", "</ul>\n",
        "<p>C</p>\n", "<ul>\n", "  <li>D</li>\n", "</ul>\n"] =
      liRuns [⟨"li", some 0, none⟩, ⟨"li", some 1, none⟩, ⟨"p", some 2, none⟩,
        ⟨"li", some 3, none⟩] false :=
  c6_list_runs.1 ["A", "B", "C", "D"] [] (fun _ => "cap")
    [⟨"li", some 0, none⟩, ⟨"li", some 1, none⟩, ⟨"p", some 2, none⟩, ⟨"li", some 3, none⟩]
    ["<ul>\n", "  <li>A</li>\n", "  <li>B</li>\n", "</ul>\n", "<p>C</p>\n",
      "<ul>\n", "  <li>D</li>\n", "</ul>\n"]
    c6_list_runs.2

/-- Helper: a valid paragraph or heading item emits its wrapped block as a
content chunk. -/
theorem mem_midChunks (blocks : List String) (images : List ImageData)
    (cap : String → String) (it : StructItem) (i : Int)
    (hty : it.type = "p" ∨ it.type = "h2" ∨ it.type = "h3")
    (hbi : it.blockIndex = some i) (hlt : i < (blocks.length : Int)) :
    ("<" ++ it.type ++ ">" ++ jsIndex blocks i ++ "</" ++ it.type ++ ">\n") ∈
      midChunks blocks images cap it := by
  have hli : ¬ it.type = "li" := by
    rcases hty with h | h | h <;> simp [h]
  unfold midChunks
  rw [if_neg hli, if_pos hty]
  simp only [hbi]
  rw [if_pos hlt]
  exact List.mem_singleton.mpr rfl

/-- Helper: a content chunk of a structure item appears among the assembled
chunks. -/
theorem mem_assembleChunks (blocks : List String) (images : List ImageData)
    (cap : String → String) :
    ∀ (items : List StructItem) (inside : Bool) (it : StructItem) (c : String),
      it ∈ items → c ∈ midChunks blocks images cap it →
      c ∈ assembleChunks blocks images cap items inside := by
  intro items
  induction items with
  | nil =>
      intro inside it c hmem _
      cases hmem
  | cons hd rest ih =>
      intro inside it c hmem hc
      rw [assembleChunks_cons]
      rcases List.mem_cons.mp hmem with he | ht
      · subst he
        exact List.mem_append.mpr (Or.inr (List.mem_append.mpr (Or.inl hc)))
      · exact List.mem_append.mpr (Or.inr (List.mem_append.mpr (Or.inr (ih _ _ _ ht hc))))

/-- Helper: a chunk of the list appears inside the concatenated string. -/
theorem concat_mem_split (cs : List String) (c : String) (h : c ∈ cs) :
    ∃ pre post : String, concatChunks cs = pre ++ (c ++ post) := by
  induction cs with
  | nil => cases h
  | cons d rest ih =>
      rcases List.mem_cons.mp h with he | ht
      · subst he
        refine ⟨"", concatChunks rest, ?_⟩
        show concatChunks (c :: rest) = "" ++ (c ++ concatChunks rest)
        rw [concatChunks]
        apply String.ext
        simp [String.data_append]
      · obtain ⟨a, b, hab⟩ := ih ht
        refine ⟨d ++ a, b, ?_⟩
        show concatChunks (d :: rest) = (d ++ a) ++ (c ++ b)
        rw [concatChunks, hab]
        apply String.ext
        simp [String.data_append]

/-- Helper: dropping whitespace from the front of a list that continues with a
known block starting in a non-whitespace character only shortens the front. -/
theorem dropWhile_ws_append (p M : List Char) (hM : M ≠ [])
    (hh : isJsWs (M.headD 'a') = false) :
    ∃ p2, List.dropWhile isJsWs (p ++ M) = p2 ++ M := by
  induction p with
  | nil =>
      cases M with
      | nil => exact absurd rfl hM
      | cons c t =>
          refine ⟨[], ?_⟩
          have hc : isJsWs c = false := hh
          simp [List.dropWhile_cons, hc]
  | cons a p ih =>
      by_cases ha : isJsWs a = true
      · obtain ⟨p2, hp2⟩ := ih
        exact ⟨p2, by simp [List.dropWhile_cons, ha, hp2]⟩
      · refine ⟨a :: p, ?_⟩
        have ha2 : isJsWs a = false := by
          cases e : isJsWs a with
          | true => exact absurd e ha
          | false => rfl
        simp [List.dropWhile_cons, ha2]

/-- Helper: the head of a reversed list is its last element. -/
theorem headD_reverse_getLastD (m : List Char) (d : Char) :
    m.reverse.headD d = m.getLastD d := by
  induction m using List.reverseRecOn with
  | nil => rfl
  | append_singleton l a _ => simp

/-- Helper: a segment bounded by non-whitespace characters survives the
JavaScript trim of any surrounding context. -/
theorem trim_infix_chars (p m q : List Char) (hm : m ≠ [])
    (hh : isJsWs (m.headD 'a') = false) (hl : isJsWs (m.getLastD 'a') = false) :
    ∃ p2 q2 : List Char, trimChars (p ++ (m ++ q)) = p2 ++ (m ++ q2) := by
  have hmq : (m ++ q) ≠ [] := by
    cases m with
    | nil => exact absurd rfl hm
    | cons c t => simp
  have hmqh : isJsWs ((m ++ q).headD 'a') = false := by
    cases m with
    | nil => exact absurd rfl hm
    | cons c t => simpa using hh
  obtain ⟨p2, hp2⟩ := dropWhile_ws_append p (m ++ q) hmq hmqh
  have hrev : (p2 ++ (m ++ q)).reverse = q.reverse ++ (m.reverse ++ p2.reverse) := by
    simp
  have hmr : (m.reverse ++ p2.reverse) ≠ [] := by
    cases he : m.reverse with
    | nil => exact absurd (List.reverse_eq_nil_iff.mp he) hm
    | cons c t => simp [he]
  have hmrh : isJsWs ((m.reverse ++ p2.reverse).headD 'a') = false := by
    cases he : m.reverse with
    | nil => exact absurd (List.reverse_eq_nil_iff.mp he) hm
    | cons c t =>
        have h1 : m.reverse.headD 'a' = c := by rw [he]; rfl
        have h2 := headD_reverse_getLastD m 'a'
        rw [h1] at h2
        simp only [he, List.cons_append, List.headD_cons]
        rw [h2]
        exact hl
  obtain ⟨q2, hq2⟩ := dropWhile_ws_append q.reverse (m.reverse ++ p2.reverse) hmr hmrh
  refine ⟨p2, q2.reverse, ?_⟩
  unfold trimChars
  rw [hp2, hrev, hq2]
  simp

/-- Helper: a successful formatArticleHtml run is trim of the concatenation of
a successful assembly of the auto-inserted structure. -/
theorem formatArticleHtml_ok (blocks : List String) (images : List ImageData)
    (st : List StructItem) (cap : String → String) (out : String)
    (h : formatArticleHtml blocks images (.ok st) cap = .ok out) :
    ∃ cs, assembleGo blocks images cap (autoInsertImages st images) false = .ok cs ∧
      out = jsTrim (concatChunks cs) := by
  simp only [formatArticleHtml] at h
  cases hrec : assembleGo blocks images cap (autoInsertImages st images) false with
  | error e =>
      rw [hrec] at h
      cases h
  | ok cs =>
      rw [hrec] at h
      injection h with h
      exact ⟨cs, rfl, h.symm⟩

/-- Helper: insertion preserves membership. -/
theorem mem_insertAt {α : Type} (a x : α) :
    ∀ (n : Nat) (l : List α), a ∈ l → a ∈ insertAt n x l := by
  intro n l
  induction l generalizing n with
  | nil => intro h; cases h
  | cons b bs ih =>
      intro h
      cases n with
      | zero => simp [insertAt, h]
      | succ m =>
          rcases List.mem_cons.mp h with he | ht
          · simp [insertAt, he]
          · simp [insertAt, ih m ht]

/-- Helper: one auto-insert step preserves the tagged items. -/
theorem mem_insertMissingOne (contentTags : List Nat) (totalBlocks : Nat)
    (tagged : List (Option Nat × StructItem)) (idx : Nat) (imageIndex : Int)
    (pr : Option Nat × StructItem) (h : pr ∈ tagged) :
    pr ∈ insertMissingOne contentTags totalBlocks tagged idx imageIndex := by
  unfold insertMissingOne
  cases hg : contentTags.get? (insertPosition totalBlocks idx) with
  | none => simp only [hg]; exact h
  | some tag =>
      simp only [hg]
      cases hf : tagged.findIdx? (fun p => p.1 == some tag) with
      | none => simp only [hf]; exact h
      | some k =>
          simp only [hf]
          exact mem_insertAt _ _ _ _ h

/-- Helper: the auto-insert pass only adds items, never removes one. -/
theorem mem_autoInsert (st : List StructItem) (images : List ImageData)
    (it : StructItem) (h : it ∈ st) : it ∈ autoInsertImages st images := by
  unfold autoInsertImages
  have htag : (some (0 : Nat), it) ∈ (st.enum.map (fun p => (some p.1, p.2))) ∨ True := Or.inr trivial
  have hx : ∃ pr : Option Nat × StructItem,
      pr ∈ (st.enum.map (fun p => (some p.1, p.2))) ∧ pr.2 = it := by
    have hs : it ∈ (st.enum.map (fun p => ((some p.1 : Option Nat), p.2))).map (fun p => p.2) := by
      have e : ((st.enum.map (fun p => ((some p.1 : Option Nat), p.2))).map (fun p => p.2)) =
          st.enum.map Prod.snd := by
        rw [List.map_map]
        rfl
      rw [e, List.enum_map_snd]
      exact h
    obtain ⟨pr, hpr, he⟩ := List.mem_map.mp hs
    exact ⟨pr, hpr, he⟩
  obtain ⟨pr, hpr, he⟩ := hx
  have hfold : ∀ (ms : List (Nat × Int)) (acc : List (Option Nat × StructItem)), pr ∈ acc →
      pr ∈ ms.foldl (fun acc2 p =>
        insertMissingOne ((st.enum.filter (fun p2 => isContentType p2.2)).map (fun p2 => p2.1))
          ((st.enum.filter (fun p2 => isContentType p2.2)).map (fun p2 => p2.1)).length
          acc2 p.1 p.2) acc := by
    intro ms
    induction ms with
    | nil => intro acc hacc; exact hacc
    | cons hd tl ih =>
        intro acc hacc
        exact ih _ (mem_insertMissingOne _ _ _ _ _ _ hacc)
  refine List.mem_map.mpr ⟨pr, ?_, he⟩
  exact hfold _ _ hpr

/-- C5: whenever formatArticleHtml succeeds, every p/h2/h3 structure item of
the classifier structure with a valid block index contributes its block
inner HTML to the final output verbatim, wrapped in the matching tag - the
wrapped block is a substring of the returned HTML even after the final trim. -/
theorem c5_content_preservation (blocks : List String) (images : List ImageData)
    (cap : String → String) (st : List StructItem) (out : String) (it : StructItem) (i : Int)
    (hfmt : formatArticleHtml blocks images (.ok st) cap = Except.ok out)
    (hmem : it ∈ st) (hty : it.type = "p" ∨ it.type = "h2" ∨ it.type = "h3")
    (hbi : it.blockIndex = some i) (hlt : i < (blocks.length : Int)) :
    ∃ pre post : String,
      out = pre ++ (("<" ++ it.type ++ ">" ++ jsIndex blocks i ++ "</" ++ it.type ++ ">") ++
        post) := by
  obtain ⟨cs, hasm, hout⟩ := formatArticleHtml_ok blocks images st cap out hfmt
  have hcs := assembleGo_ok_chunks blocks images cap _ false cs hasm
  have hchunk : ("<" ++ it.type ++ ">" ++ jsIndex blocks i ++ "</" ++ it.type ++ ">\n") ∈ cs := by
    rw [hcs]
    exact mem_assembleChunks blocks images cap _ false it _
      (mem_autoInsert st images it hmem) (mem_midChunks blocks images cap it i hty hbi hlt)
  obtain ⟨a, b, hab⟩ := concat_mem_split cs _ hchunk
  have hsplit : ("<" ++ it.type ++ ">" ++ jsIndex blocks i ++ "</" ++ it.type ++ ">\n") =
      ("<" ++ it.type ++ ">" ++ jsIndex blocks i ++ "</" ++ it.type ++ ">") ++ "\n" := by
    apply String.ext
    simp [String.data_append]
  rw [hsplit] at hab
  have hd : (concatChunks cs).data =
      a.data ++ (("<" ++ it.type ++ ">" ++ jsIndex blocks i ++ "</" ++ it.type ++ ">").data ++
        (("\n" : String).data ++ b.data)) := by
    have h2 := congrArg String.data hab
    rw [String.data_append, String.data_append, String.data_append, List.append_assoc] at h2
    exact h2
  have hm : ("<" ++ it.type ++ ">" ++ jsIndex blocks i ++ "</" ++ it.type ++ ">").data ≠ [] := by
    simp [String.data_append]
  have hh : isJsWs (("<" ++ it.type ++ ">" ++ jsIndex blocks i ++ "</" ++ it.type ++
      ">").data.headD 'a') = false := by
    have e : ("<" ++ it.type ++ ">" ++ jsIndex blocks i ++ "</" ++ it.type ++
        ">").data.headD 'a' = '<' := by
      simp [String.data_append]
    rw [e]
    rfl
  have hgl : isJsWs (("<" ++ it.type ++ ">" ++ jsIndex blocks i ++ "</" ++ it.type ++
      ">").data.getLastD 'a') = false := by
    have hlast : ("<" ++ it.type ++ ">" ++ jsIndex blocks i ++ "</" ++ it.type ++
        ">").data.getLastD 'a' = '>' := by
      rw [String.data_append]
      exact List.getLastD_concat _ _ _
    rw [hlast]
    rfl
  obtain ⟨p2, q2, htr⟩ := trim_infix_chars a.data
    ("<" ++ it.type ++ ">" ++ jsIndex blocks i ++ "</" ++ it.type ++ ">").data
    (("\n" : String).data ++ b.data) hm hh hgl
  have houtd : out.data =
      p2 ++ (("<" ++ it.type ++ ">" ++ jsIndex blocks i ++ "</" ++ it.type ++ ">").data ++ q2) := by
    rw [hout]
    show trimChars (concatChunks cs).data = _
    rw [hd]
    exact htr
  refine ⟨⟨p2⟩, ⟨q2⟩, ?_⟩
  apply String.ext
  rw [String.data_append, String.data_append]
  exact houtd

/-- Witness for c5_content_preservation at a one-paragraph structure. -/
theorem c5_content_preservation_witness :
    ∃ pre post : String,
      "<p>hello</p>" =
        pre ++ (("<" ++ (⟨"p", some 0, none⟩ : StructItem).type ++ ">" ++
          jsIndex ["hello"] 0 ++ "</" ++ (⟨"p", some 0, none⟩ : StructItem).type ++ ">") ++
          post) :=
  c5_content_preservation ["hello"] [] (fun _ => "cap") [⟨"p", some 0, none⟩] "<p>hello</p>"
    ⟨"p", some 0, none⟩ 0 rfl (List.mem_singleton.mpr rfl) (Or.inl rfl) rfl (by decide)

/-- Helper: figure counting distributes over concatenation. -/
theorem countFigChunks_append (a b : List String) :
    countFigChunks (a ++ b) = countFigChunks a + countFigChunks b := by
  induction a with
  | nil => simp [countFigChunks]
  | cons c cs ih => simp [countFigChunks, ih, Nat.add_assoc]

/-- Helper: a non-figure chunk counts zero. -/
theorem countFig_singleton_false (c : String) (h : isFigChunk c = false) :
    countFigChunks [c] = 0 := by
  simp [countFigChunks, h]

/-- Helper: a figure chunk counts one. -/
theorem countFig_singleton_true (c : String) (h : isFigChunk c = true) :
    countFigChunks [c] = 1 := by
  simp [countFigChunks, h]

/-- Helper: container chunks are not figure chunks. -/
theorem countFig_pre (item : StructItem) (inside : Bool) :
    countFigChunks (preChunks item inside) = 0 := by
  have e1 : isFigChunk "<ul>\n" = false := rfl
  have e2 : isFigChunk "</ul>\n" = false := rfl
  unfold preChunks
  by_cases hli : item.type = "li" <;> cases inside <;>
    simp [hli, countFigChunks, e1, e2]

/-- Helper: the content chunks of one item contain exactly one figure chunk
when the item is a figure-emitting image item, none otherwise. -/
theorem countFig_mid (blocks : List String) (images : List ImageData)
    (cap : String → String) (item : StructItem) :
    countFigChunks (midChunks blocks images cap item) =
      if figEmits images item then 1 else 0 := by
  have eli : ∀ x : String, isFigChunk ("  <li>" ++ x ++ "</li>\n") = false := fun _ => rfl
  have ep : ∀ x : String, isFigChunk ("<" ++ "p" ++ ">" ++ x ++ "</" ++ "p" ++ ">\n") = false :=
    fun _ => rfl
  have eh2 : ∀ x : String, isFigChunk ("<" ++ "h2" ++ ">" ++ x ++ "</" ++ "h2" ++ ">\n") = false :=
    fun _ => rfl
  have eh3 : ∀ x : String, isFigChunk ("<" ++ "h3" ++ ">" ++ x ++ "</" ++ "h3" ++ ">\n") = false :=
    fun _ => rfl
  have etb : ∀ x : String,
      isFigChunk ("\n<!-- wp:html -->\n" ++ x ++ "\n<!-- /wp:html -->\n") = false := fun _ => rfl
  have efg : ∀ img : ImageData, isFigChunk (figureChunk cap img) = true := fun _ => rfl
  unfold midChunks figEmits
  by_cases hli : item.type = "li"
  · have hni : ¬ item.type = "image" := by rw [hli]; simp
    simp only [if_pos hli, if_neg hni]
    cases hbi : item.blockIndex with
    | none => rfl
    | some i =>
        by_cases hlt : (i < (blocks.length : Int))
        · simp only [if_pos hlt]
          exact countFig_singleton_false _ (eli _)
        · simp only [if_neg hlt]
          rfl
  · simp only [if_neg hli]
    by_cases hp : item.type = "p" ∨ item.type = "h2" ∨ item.type = "h3"
    · have hni : ¬ item.type = "image" := by
        rcases hp with h | h | h <;> rw [h] <;> simp
      simp only [if_pos hp, if_neg hni]
      cases hbi : item.blockIndex with
      | none => rfl
      | some i =>
          by_cases hlt : (i < (blocks.length : Int))
          · simp only [if_pos hlt]
            rcases hp with h | h | h
            · rw [h]
              exact countFig_singleton_false _ (ep _)
            · rw [h]
              exact countFig_singleton_false _ (eh2 _)
            · rw [h]
              exact countFig_singleton_false _ (eh3 _)
          · simp only [if_neg hlt]
            rfl
    · simp only [if_neg hp]
      by_cases ht : item.type = "table"
      · have hni : ¬ item.type = "image" := by rw [ht]; simp
        simp only [if_pos ht, if_neg hni]
        cases hbi : item.blockIndex with
        | none => rfl
        | some i =>
            by_cases hlt : (i < (blocks.length : Int))
            · simp only [if_pos hlt]
              exact countFig_singleton_false _ (etb _)
            · simp only [if_neg hlt]
              rfl
      · simp only [if_neg ht]
        by_cases him : item.type = "image"
        · simp only [if_pos him]
          cases hmi : item.imageIndex with
          | none => rfl
          | some m =>
              by_cases hlen : ((m - 1 : Int) < (images.length : Int))
              · simp only [if_pos hlen]
                by_cases hneg : ((m - 1 : Int) < 0)
                · have hne : ¬ ¬ ((m - 1 : Int) < 0) := not_not_intro hneg
                  simp only [if_pos hneg]
                  simp [countFigChunks, hlen, hneg]
                · simp only [if_neg hneg]
                  rw [countFig_singleton_true _ (efg _)]
                  simp [hlen, hneg]
              · simp only [if_neg hlen]
                simp [countFigChunks, hlen]
        · simp only [if_neg him]
          rfl

/-- Helper: the figure count of the assembled chunks is the number of
figure-emitting items. -/
theorem countFig_assembleChunks (blocks : List String) (images : List ImageData)
    (cap : String → String) :
    ∀ (items : List StructItem) (inside : Bool),
      countFigChunks (assembleChunks blocks images cap items inside) =
        countEmits images items := by
  intro items
  induction items with
  | nil => intro inside; cases inside <;> rfl
  | cons item rest ih =>
      intro inside
      rw [assembleChunks_cons, countFigChunks_append, countFigChunks_append,
        countFig_pre, countFig_mid, ih (nextInside item)]
      simp [countEmits]
/-- Helper: when every image index 1..M is referenced, the validation pass
finds nothing missing and leaves the structure unchanged. -/
theorem autoInsert_of_no_missing (st : List StructItem) (images : List ImageData)
    (h : ∀ i ∈ List.range images.length,
      ((st.filter (fun it => it.type == "image")).map (fun it => it.imageIndex)).contains
        (some (Int.ofNat (i + 1))) = true) :
    autoInsertImages st images = st := by
  simp only [autoInsertImages]
  have hmiss : (((List.range images.length).map (fun k => Int.ofNat (k + 1))).filter
      (fun i => !(((st.filter (fun it => it.type == "image")).map
        (fun it => it.imageIndex)).contains (some i)))) = [] := by
    apply List.filter_eq_nil_iff.mpr
    intro x hx
    obtain ⟨k, hk, he⟩ := List.mem_map.mp hx
    rw [← he]
    intro hbad
    rw [h k hk] at hbad
    simp at hbad
  rw [hmiss]
  show ((st.enum.map (fun p => ((some p.1 : Option Nat), p.2))).map (fun p => p.2)) = st
  have e : ((st.enum.map (fun p => ((some p.1 : Option Nat), p.2))).map (fun p => p.2)) =
      st.enum.map Prod.snd := by
    rw [List.map_map]
    rfl
  rw [e, List.enum_map_snd]

/-- Helper: under validity of all image items, the number of figure-emitting
items equals the number of image references. -/
theorem countEmits_eq_used (images : List ImageData) :
    ∀ (items : List StructItem),
      (∀ it ∈ items, it.type = "image" →
        ∃ m, it.imageIndex = some m ∧ 1 ≤ m ∧ m ≤ (images.length : Int)) →
      countEmits images items =
        ((items.filter (fun it => it.type == "image")).map (fun it => it.imageIndex)).length := by
  intro items
  induction items with
  | nil => intro _; rfl
  | cons it rest ih =>
      intro hval
      have hrest := fun x hx => hval x (List.mem_cons_of_mem _ hx)
      by_cases htype : it.type = "image"
      · obtain ⟨m, hm, h1, h2⟩ := hval it (List.mem_cons_self _ _) htype
        have hfe : figEmits images it = true := by
          unfold figEmits
          rw [if_pos htype, hm]
          simp
          omega
        have hfilter : (it :: rest).filter (fun x => x.type == "image") =
            it :: rest.filter (fun x => x.type == "image") := by
          simp [List.filter_cons, htype]
        rw [hfilter]
        simp [countEmits, hfe, ih hrest]
        omega
      · have hfe : figEmits images it = false := by
          unfold figEmits
          rw [if_neg htype]
        have hfilter : (it :: rest).filter (fun x => x.type == "image") =
            rest.filter (fun x => x.type == "image") := by
          simp [List.filter_cons, htype]
        rw [hfilter]
        simp [countEmits, hfe, ih hrest]

/-- C4 amended: when the classifier structure references each image index in
1..M exactly once, the validation pass inserts nothing, the assembly succeeds,
and the assembled chunks contain exactly M figure blocks - each image rendered
exactly once in the formatArticleHtml output. -/
theorem c4_amended_images_exactly_once (blocks : List String) (images : List ImageData)
    (cap : String → String) (st : List StructItem)
    (hperm : ((st.filter (fun it => it.type == "image")).map (fun it => it.imageIndex)).Perm
      ((List.range images.length).map (fun k => some (Int.ofNat (k + 1))))) :
    ∃ cs, assembleGo blocks images cap (autoInsertImages st images) false = Except.ok cs ∧
      countFigChunks cs = images.length ∧
      formatArticleHtml blocks images (.ok st) cap =
        Except.ok (jsTrim (concatChunks cs)) := by
  have hval : ∀ it ∈ st, it.type = "image" →
      ∃ m, it.imageIndex = some m ∧ 1 ≤ m ∧ m ≤ (images.length : Int) := by
    intro it hit htype
    cases hmi : it.imageIndex with
    | none =>
        exfalso
        have hmm : (none : Option Int) ∈
            (st.filter (fun x => x.type == "image")).map (fun x => x.imageIndex) :=
          List.mem_map.mpr ⟨it, List.mem_filter.mpr ⟨hit, by simp [htype]⟩, hmi⟩
        have h2 := hperm.mem_iff.mp hmm
        simp at h2
    | some m =>
        have hmm : (some m) ∈
            (st.filter (fun x => x.type == "image")).map (fun x => x.imageIndex) :=
          List.mem_map.mpr ⟨it, List.mem_filter.mpr ⟨hit, by simp [htype]⟩, hmi⟩
        have h2 := hperm.mem_iff.mp hmm
        obtain ⟨k, hk, he⟩ := List.mem_map.mp h2
        have hm : m = Int.ofNat (k + 1) := by
          injection he with he2
          exact he2.symm
        have hkr := List.mem_range.mp hk
        have hm2 : m = ((k + 1 : Nat) : Int) := by
          rw [hm]
          rfl
        refine ⟨m, rfl, ?_, ?_⟩ <;> omega
  have hcontains : ∀ i ∈ List.range images.length,
      ((st.filter (fun it => it.type == "image")).map (fun it => it.imageIndex)).contains
        (some (Int.ofNat (i + 1))) = true := by
    intro i hi
    have hmm : (some (Int.ofNat (i + 1))) ∈
        (List.range images.length).map (fun k => some (Int.ofNat (k + 1))) :=
      List.mem_map.mpr ⟨i, hi, rfl⟩
    have h2 := hperm.mem_iff.mpr hmm
    exact List.elem_iff.mpr h2
  have hnomiss := autoInsert_of_no_missing st images hcontains
  have hnt : noThrow images st = true := by
    unfold noThrow
    apply List.all_eq_true.mpr
    intro it hit
    by_cases htype : it.type = "image"
    · obtain ⟨m, hm, h1, h2⟩ := hval it hit htype
      simp [htype, hm]
      omega
    · simp [htype]
  have hok := assembleGo_of_noThrow blocks images cap st false hnt
  rw [hnomiss]
  refine ⟨assembleChunks blocks images cap st false, hok, ?_, ?_⟩
  · rw [countFig_assembleChunks, countEmits_eq_used images st hval, hperm.length_eq]
    simp
  · simp only [formatArticleHtml]
    rw [hnomiss, hok]

/-- Witness for c4_amended_images_exactly_once on a structure that references
its single image exactly once. -/
theorem c4_amended_images_exactly_once_witness :
    ∃ cs, assembleGo ["hello"] [{ source_url := "u", prompt := "pr" }] (fun _ => "cap")
        (autoInsertImages [⟨"p", some 0, none⟩, ⟨"image", none, some 1⟩]
          [{ source_url := "u", prompt := "pr" }]) false = Except.ok cs ∧
      countFigChunks cs = 1 ∧
      formatArticleHtml ["hello"] [{ source_url := "u", prompt := "pr" }]
          (.ok [⟨"p", some 0, none⟩, ⟨"image", none, some 1⟩]) (fun _ => "cap") =
        Except.ok (jsTrim (concatChunks cs)) := by
  have h := c4_amended_images_exactly_once ["hello"] [{ source_url := "u", prompt := "pr" }]
    (fun _ => "cap") [⟨"p", some 0, none⟩, ⟨"image", none, some 1⟩] (by decide)
  simpa using h

/-- Helper: the selection loop never updates when no remaining candidate beats
the running maximum. -/
theorem selectLoop_no_update (articleTags : List String) :
    ∀ (ws : List WidgetDefinition) (b : Option WidgetDefinition) (m : Nat),
      (∀ x ∈ ws, widgetScore articleTags x ≤ m) →
      selectLoop articleTags ws (b, m) = (b, m) := by
  intro ws
  induction ws with
  | nil => intro b m _; rfl
  | cons w ws ih =>
      intro b m h
      have hw := h w (List.mem_cons_self _ _)
      have hnot : ¬ (m < widgetScore articleTags w) := by omega
      simp only [selectLoop, if_neg hnot]
      exact ih b m (fun x hx => h x (List.mem_cons_of_mem _ hx))

/-- Helper: running the loop over a prefix of strictly lower-scoring
candidates keeps the running maximum below the target score. -/
theorem selectLoop_lowPre (articleTags : List String) (c : Nat) :
    ∀ (pre rest : List WidgetDefinition) (b : Option WidgetDefinition) (m : Nat),
      (∀ x ∈ pre, widgetScore articleTags x < c) → m < c →
      ∃ b2 m2, selectLoop articleTags (pre ++ rest) (b, m) =
        selectLoop articleTags rest (b2, m2) ∧ m2 < c := by
  intro pre
  induction pre with
  | nil => intro rest b m _ hm; exact ⟨b, m, rfl, hm⟩
  | cons x pre ih =>
      intro rest b m hpre hm
      have hx := hpre x (List.mem_cons_self _ _)
      have hrest := fun y hy => hpre y (List.mem_cons_of_mem _ hy)
      by_cases hup : m < widgetScore articleTags x
      · simp only [List.cons_append, selectLoop, if_pos hup]
        exact ih rest (some x) (widgetScore articleTags x) hrest hx
      · simp only [List.cons_append, selectLoop, if_neg hup]
        exact ih rest b m hrest hm

/-- Helper: the loop selects the first candidate of maximal positive score. -/
theorem selectLoop_first_max (articleTags : List String) (pre post : List WidgetDefinition)
    (w : WidgetDefinition) (hw : 0 < widgetScore articleTags w)
    (hpre : ∀ x ∈ pre, widgetScore articleTags x < widgetScore articleTags w)
    (hpost : ∀ x ∈ post, widgetScore articleTags x ≤ widgetScore articleTags w) :
    selectLoop articleTags (pre ++ w :: post) (none, 0) =
      (some w, widgetScore articleTags w) := by
  obtain ⟨b2, m2, he, hm2⟩ := selectLoop_lowPre articleTags (widgetScore articleTags w)
    pre (w :: post) none 0 hpre hw
  rw [he]
  simp only [selectLoop, if_pos hm2]
  exact selectLoop_no_update articleTags post (some w) (widgetScore articleTags w) hpost

/-- C7 amended: findBestWidget returns the first position-filtered candidate
of maximal positive tag-overlap score; when every candidate scores zero it
falls back to the position-specific universal fallback id looked up in the
whole catalog - for both positions; when no widget has the position at all it
returns none without consulting the fallback. -/
theorem c7_amended_selection :
    (∀ (catalog : List WidgetDefinition) (articleTags : List String) (position : String)
        (pre post : List WidgetDefinition) (w : WidgetDefinition),
      catalog.filter (fun x => x.position == position) = pre ++ w :: post →
      0 < widgetScore articleTags w →
      (∀ x ∈ pre, widgetScore articleTags x < widgetScore articleTags w) →
      (∀ x ∈ post, widgetScore articleTags x ≤ widgetScore articleTags w) →
      findBestWidget catalog articleTags position = some w) ∧
    (∀ (catalog : List WidgetDefinition) (articleTags : List String) (position : String),
      catalog.filter (fun x => x.position == position) ≠ [] →
      (∀ x ∈ catalog.filter (fun x => x.position == position),
        widgetScore articleTags x = 0) →
      findBestWidget catalog articleTags position =
        catalog.find? (fun x => x.id ==
          (if position == "top" then "universal-fallback-top"
           else "universal-fallback-bottom"))) ∧
    (∀ (catalog : List WidgetDefinition) (articleTags : List String) (position : String),
      catalog.filter (fun x => x.position == position) = [] →
      findBestWidget catalog articleTags position = none) := by
  refine ⟨?_, ?_, ?_⟩
  · intro catalog articleTags position pre post w hfil hw hpre hpost
    have hie : (catalog.filter (fun x => x.position == position)).isEmpty = false := by
      rw [hfil]
      cases pre <;> rfl
    simp only [findBestWidget, hie]
    rw [hfil, selectLoop_first_max articleTags pre post w hw hpre hpost]
    simp
  · intro catalog articleTags position hne hzero
    have hie : (catalog.filter (fun x => x.position == position)).isEmpty = false := by
      cases hc : catalog.filter (fun x => x.position == position) with
      | nil => exact absurd hc hne
      | cons a t => rfl
    have hloop : selectLoop articleTags (catalog.filter (fun x => x.position == position))
        (none, 0) = (none, 0) :=
      selectLoop_no_update articleTags _ none 0 (fun x hx => le_of_eq (hzero x hx))
    simp only [findBestWidget, hie, hloop]
    cases hf : catalog.find? (fun x => x.id ==
        (if position == "top" then "universal-fallback-top"
         else "universal-fallback-bottom")) <;> simp [hf]
  · intro catalog articleTags position hfil
    have hie : (catalog.filter (fun x => x.position == position)).isEmpty = true := by
      rw [hfil]
      rfl
    simp only [findBestWidget, hie]
    rfl

/-- Witness for c7_amended_selection: the spec determinism example - widgets
with tags [a, b] and [a] against article tags [a, b, c] select the first
widget with score 2. -/
theorem c7_amended_selection_witness :
    findBestWidget [⟨"w1", "W1", "top", ["a", "b"], "X"⟩, ⟨"w2", "W2", "top", ["a"], "Y"⟩]
      ["a", "b", "c"] "top" = some ⟨"w1", "W1", "top", ["a", "b"], "X"⟩ :=
  c7_amended_selection.1
    [⟨"w1", "W1", "top", ["a", "b"], "X"⟩, ⟨"w2", "W2", "top", ["a"], "Y"⟩]
    ["a", "b", "c"] "top" [] [⟨"w2", "W2", "top", ["a"], "Y"⟩]
    ⟨"w1", "W1", "top", ["a", "b"], "X"⟩ (by decide) (by decide)
    (by intro x hx; cases hx) (by decide)

end OrganicFabric
